import Mathlib

/-!
Verification development for a BLE keg-monitor library (`kegtron`).

The Python sources are shallowly embedded:
* `bytes` values become `List Nat` (each entry a byte value `< 256`);
* Python `str` values become `List Nat` of Unicode code points;
* Python `int` becomes `ℤ` (unbounded), intermediate byte arithmetic `ℕ`;
* `float` arithmetic on volumes is modelled exactly over `ℚ`;
* fallible operations return `Option` / `Except`.
-/

set_option maxRecDepth 8192

namespace Kegtron

/-! ### Unicode scalar values and UTF-8

Models CPython's `bytes.decode('utf-8', errors='replace')` (each maximal
ill-formed subpart of the input is replaced by one U+FFFD, per the Unicode
recommendation that CPython implements) and `str.encode('utf-8')`. -/

/-- A Unicode scalar value: any code point except the surrogate range. -/
def isScalar (c : Nat) : Prop := c < 0xD800 ∨ (0xE000 ≤ c ∧ c < 0x110000)

instance (c : Nat) : Decidable (isScalar c) := by unfold isScalar; infer_instance

/-- UTF-8 encoding of one scalar value (Python `chr(c).encode('utf-8')`).
`c / 64 % 64` is `(c >> 6) & 0x3F`, etc. -/
def utf8EncodeChar (c : Nat) : List Nat :=
  if c < 0x80 then [c]
  else if c < 0x800 then [0xC0 + c / 64, 0x80 + c % 64]
  else if c < 0x10000 then [0xE0 + c / 4096, 0x80 + c / 64 % 64, 0x80 + c % 64]
  else [0xF0 + c / 262144, 0x80 + c / 4096 % 64, 0x80 + c / 64 % 64, 0x80 + c % 64]

/-- UTF-8 encoding of a string of code points (Python `s.encode('utf-8')`). -/
def utf8Encode : List Nat → List Nat
  | [] => []
  | c :: cs => utf8EncodeChar c ++ utf8Encode cs

/-- Is `b` a UTF-8 continuation byte (`0x80..0xBF`)? -/
def isCont (b : Nat) : Prop := 0x80 ≤ b ∧ b < 0xC0

instance (b : Nat) : Decidable (isCont b) := by unfold isCont; infer_instance

/-- Allowed range of the first continuation byte after a 3-byte lead `b`
(restricts `0xE0` to avoid overlong forms and `0xED` to avoid surrogates). -/
def cont3Ok (b b1 : Nat) : Prop :=
  if b = 0xE0 then 0xA0 ≤ b1 ∧ b1 < 0xC0
  else if b = 0xED then 0x80 ≤ b1 ∧ b1 < 0xA0
  else isCont b1

instance (b b1 : Nat) : Decidable (cont3Ok b b1) := by unfold cont3Ok; infer_instance

/-- Allowed range of the first continuation byte after a 4-byte lead `b`
(restricts `0xF0` to avoid overlong forms and `0xF4` to stay `≤ U+10FFFF`). -/
def cont4Ok (b b1 : Nat) : Prop :=
  if b = 0xF0 then 0x90 ≤ b1 ∧ b1 < 0xC0
  else if b = 0xF4 then 0x80 ≤ b1 ∧ b1 < 0x90
  else isCont b1

instance (b b1 : Nat) : Decidable (cont4Ok b b1) := by unfold cont4Ok; infer_instance

/-- CPython's UTF-8 decoder with `errors='replace'`: ill-formed maximal
subparts become U+FFFD and decoding resumes at the offending byte; a valid
sequence `l c1 .. ck` decodes to the code point built from the low bits
(`b % 64` is `b & 0x3F`, `b - 0xC0` is `b & 0x1F` for a 2-byte lead, …). -/
def utf8DecodeReplace : List Nat → List Nat
  | [] => []
  | b :: bs =>
    if b < 0x80 then b :: utf8DecodeReplace bs
    else if b < 0xC2 then 0xFFFD :: utf8DecodeReplace bs
    else if b < 0xE0 then
      match bs with
      | [] => [0xFFFD]
      | b1 :: bs1 =>
        if isCont b1 then ((b - 0xC0) * 64 + (b1 - 0x80)) :: utf8DecodeReplace bs1
        else 0xFFFD :: utf8DecodeReplace (b1 :: bs1)
    else if b < 0xF0 then
      match bs with
      | [] => [0xFFFD]
      | b1 :: bs1 =>
        if cont3Ok b b1 then
          match bs1 with
          | [] => [0xFFFD]
          | b2 :: bs2 =>
            if isCont b2 then
              ((b - 0xE0) * 4096 + (b1 - 0x80) * 64 + (b2 - 0x80)) :: utf8DecodeReplace bs2
            else 0xFFFD :: utf8DecodeReplace (b2 :: bs2)
        else 0xFFFD :: utf8DecodeReplace (b1 :: bs1)
    else if b < 0xF5 then
      match bs with
      | [] => [0xFFFD]
      | b1 :: bs1 =>
        if cont4Ok b b1 then
          match bs1 with
          | [] => [0xFFFD]
          | b2 :: bs2 =>
            if isCont b2 then
              match bs2 with
              | [] => [0xFFFD]
              | b3 :: bs3 =>
                if isCont b3 then
                  ((b - 0xF0) * 262144 + (b1 - 0x80) * 4096
                    + (b2 - 0x80) * 64 + (b3 - 0x80)) :: utf8DecodeReplace bs3
                else 0xFFFD :: utf8DecodeReplace (b3 :: bs3)
            else 0xFFFD :: utf8DecodeReplace (b2 :: bs2)
        else 0xFFFD :: utf8DecodeReplace (b1 :: bs1)
    else 0xFFFD :: utf8DecodeReplace bs

/-- Python `s.rstrip('\x00')`: remove every trailing NUL code point. -/
def rstripNul (s : List Nat) : List Nat :=
  (s.reverse.dropWhile (fun c => c == 0)).reverse

/-! ### Data model (`models.py`) -/

/-- The `PortState` enumeration (`models.py`). -/
inductive PortState where
  | DISABLED
  | ENABLED
  | UNKNOWN_2
  | UNKNOWN_3
  deriving DecidableEq, Repr

/-- The integer value of a `PortState` member (it is an `IntEnum`). -/
def PortState.val : PortState → Nat
  | .DISABLED => 0
  | .ENABLED => 1
  | .UNKNOWN_2 => 2
  | .UNKNOWN_3 => 3

/-- Model of `PortState(value)` — the enum constructor, which raises `ValueError`
(here: `none`) on a value that is not a member. -/
def PortState.ofNat? (n : Nat) : Option PortState :=
  if n = 0 then some .DISABLED
  else if n = 1 then some .ENABLED
  else if n = 2 then some .UNKNOWN_2
  else if n = 3 then some .UNKNOWN_3
  else none

/-- The `PortState` selected by the low two bits of a status byte. -/
def PortState.ofTwoBits (n : Nat) : PortState :=
  if n % 4 = 0 then .DISABLED
  else if n % 4 = 1 then .ENABLED
  else if n % 4 = 2 then .UNKNOWN_2
  else .UNKNOWN_3

/-- The `KegtronReading` dataclass (`models.py`); volumes and port numbers are
Python `int`s, the beer name a Python `str` (list of code points). -/
structure KegtronReading where
  keg_size_ml : ℤ
  volume_start_ml : ℤ
  volume_dispensed_ml : ℤ
  port_count : ℤ
  port_index : ℤ
  port_state : PortState
  beer_name : List Nat
  deriving DecidableEq, Repr

/-- Property `KegtronReading.volume_remaining_ml`: `max(0, start - dispensed)`. -/
def volume_remaining_ml (r : KegtronReading) : ℤ :=
  max 0 (r.volume_start_ml - r.volume_dispensed_ml)

/-- Property `KegtronReading.percent_remaining`, with the float division modelled
exactly over `ℚ`. -/
def percent_remaining (r : KegtronReading) : ℚ :=
  if r.volume_start_ml ≤ 0 then 0
  else ((volume_remaining_ml r : ℚ) / (r.volume_start_ml : ℚ)) * 100

/-- The body of the `is_low` property, whose `threshold` parameter
defaults to `15.0`. -/
def is_low_threshold (r : KegtronReading) (threshold : ℚ) : Bool :=
  percent_remaining r < threshold

/-- Property `KegtronReading.is_low` as it is actually reachable: a property access
passes no arguments, so the default threshold `15.0` is always used. -/
def is_low (r : KegtronReading) : Bool :=
  is_low_threshold r 15

/-! ### Parser (`parser.py`) -/

/-- The error taxonomy of `parse_manufacturer_data` (`ParseError` carrying
either the invalid-length message with expected/actual lengths, or the
catch-all wrap of an unexpected internal failure). -/
inductive ParseError where
  | invalidLength (expected actual : Nat)
  | decodeFailure
  deriving DecidableEq, Repr

/-- Model of `int.from_bytes(bs, byteorder='big')`. -/
def beUint16 (bs : List Nat) : Nat :=
  bs.foldl (fun a b => a * 256 + b) 0

/-- The `KEGTRON_DATA_LENGTH` constant. -/
def KEGTRON_DATA_LENGTH : Nat := 27

/-- Model of `parse_manufacturer_data` (`parser.py`). Inside the `try` block the only
fallible operation is the `PortState(value)` construction; UTF-8 decoding
with `errors='replace'` is total. `psb / 64 % 4` is `(psb >> 6) & 0b11`,
`psb / 16 % 4` is `(psb >> 4) & 0b11`, `psb % 4` is `psb & 0b11`. -/
def parse_manufacturer_data (data : List Nat) : Except ParseError KegtronReading :=
  if data.length ≠ KEGTRON_DATA_LENGTH then
    .error (.invalidLength KEGTRON_DATA_LENGTH data.length)
  else
    let keg_size_ml := beUint16 ((data.drop 0).take 2)
    let volume_start_ml := beUint16 ((data.drop 2).take 2)
    let volume_dispensed_ml := beUint16 ((data.drop 4).take 2)
    let psb := data.getD 6 0
    let port_count := psb / 64 % 4
    let port_index := psb / 16 % 4
    let port_state_value := psb % 4
    let beer_name := rstripNul (utf8DecodeReplace ((data.drop 7).take 20))
    match PortState.ofNat? port_state_value with
    | some ps =>
      .ok { keg_size_ml := keg_size_ml
            volume_start_ml := volume_start_ml
            volume_dispensed_ml := volume_dispensed_ml
            port_count := port_count
            port_index := port_index
            port_state := ps
            beer_name := beer_name }
    | none => .error .decodeFailure

/-- ASCII lower-casing of one code point, modelling the case folding that
`re.IGNORECASE` applies to the letters of the marker word. -/
def lowerAscii (c : Nat) : Nat :=
  if 65 ≤ c ∧ c ≤ 90 then c + 32 else c

/-- ASCII upper-casing of one code point (Python `str.upper` restricted to
the characters a hexadecimal run can contain). -/
def upperAscii (c : Nat) : Nat :=
  if 97 ≤ c ∧ c ≤ 122 then c - 32 else c

/-- The character class `[A-Fa-f0-9]`. -/
def isHexDigit (c : Nat) : Bool :=
  (48 ≤ c && c ≤ 57) || (65 ≤ c && c ≤ 70) || (97 ≤ c && c ≤ 102)

/-- Python `re`'s `\s` on `str`: ASCII whitespace, the C1 separators, and
the Unicode space code points. -/
def isReSpace (c : Nat) : Bool :=
  c ∈ [9, 10, 11, 12, 13, 32, 0x1C, 0x1D, 0x1E, 0x1F, 0x85, 0xA0, 0x1680,
       0x2000, 0x2001, 0x2002, 0x2003, 0x2004, 0x2005, 0x2006, 0x2007,
       0x2008, 0x2009, 0x200A, 0x2028, 0x2029, 0x202F, 0x205F, 0x3000]

/-- The marker word `"kegtron"`, lower-cased code points. -/
def markerLower : List Nat := [107, 101, 103, 116, 114, 111, 110]

/-- Case-insensitive literal match of the pattern `p` (given lower-cased)
against a prefix of `s`; returns the remaining suffix on success. -/
def matchPrefixCI : List Nat → List Nat → Option (List Nat)
  | [], s => some s
  | _ :: _, [] => none
  | p :: ps, c :: cs => if lowerAscii c = p then matchPrefixCI ps cs else none

/-- One attempt of the regex `Kegtron\s+([A-Fa-f0-9]+)` anchored at the head
of `s`: the marker (case-insensitive), then a maximal nonempty whitespace
run, then a maximal nonempty hexadecimal run, which is the captured group. -/
def tryMatchAt (s : List Nat) : Option (List Nat) :=
  match matchPrefixCI markerLower s with
  | none => none
  | some rest =>
    let ws := rest.takeWhile isReSpace
    let tail := rest.dropWhile isReSpace
    let hex := tail.takeWhile isHexDigit
    if ws ≠ [] ∧ hex ≠ [] then some hex else none

/-- Model of `re.search`: try the pattern at each start position, left to right. -/
def searchKegtron : List Nat → Option (List Nat)
  | [] => none
  | c :: cs =>
    match tryMatchAt (c :: cs) with
    | some h => some h
    | none => searchKegtron cs

/-- Model of `extract_device_id` (`parser.py`): `None` for an empty name, otherwise
`re.search(r'Kegtron\s+([A-Fa-f0-9]+)', name, re.IGNORECASE)` with the
captured hexadecimal run upper-cased. -/
def extract_device_id (device_name : List Nat) : Option (List Nat) :=
  if device_name = [] then none
  else (searchKegtron device_name).map (List.map upperAscii)

/-! ### Classifier utilities (`utils.py`) -/

/-- Model of `detect_pour` (`utils.py`): report the dispensed delta iff it reaches
the minimum pour threshold (default 30). -/
def detect_pour (current_dispensed_ml previous_dispensed_ml : ℤ)
    (min_pour_ml : ℤ := 30) : Option ℤ :=
  let diff := current_dispensed_ml - previous_dispensed_ml
  if diff ≥ min_pour_ml then some diff else none

/-- Model of `detect_new_keg` (`utils.py`): a new keg iff the start volume changed or
the dispensed counter dropped by strictly more than the reset threshold
(default 1000). -/
def detect_new_keg (current_start_ml previous_start_ml
    current_dispensed_ml previous_dispensed_ml : ℤ)
    (reset_threshold_ml : ℤ := 1000) : Bool :=
  if current_start_ml ≠ previous_start_ml then true
  else if previous_dispensed_ml - current_dispensed_ml > reset_threshold_ml then true
  else false

/-! ### Tracking scanner (`scanner.py`)

`KegtronScanner.scan` is embedded over an abstract list of devices produced
by the scan pass (the BLE radio is outside the model).  An observer callback
is identified by a `Nat`; its behaviour is an arbitrary function to
`Except`, an `.error` result standing for a raised exception.  The embedding
returns, besides the device list and the new state, the trace of attempted
callback invocations (callback id, device, whether the call succeeded). -/

/-- The `KegtronDevice` dataclass (`models.py`). -/
structure KegtronDevice where
  device_id : List Nat
  device_name : List Nat
  ble_address : List Nat
  reading : KegtronReading
  deriving DecidableEq, Repr

/-- Python `dict.__setitem__`: replace in place if the key is present,
append otherwise. -/
def updateAssoc (m : List (List Nat × KegtronDevice)) (k : List Nat)
    (v : KegtronDevice) : List (List Nat × KegtronDevice) :=
  if m.any (fun e => e.1 = k) then
    m.map (fun e => if e.1 = k then (k, v) else e)
  else m ++ [(k, v)]

/-- Python `dict.get`. -/
def lookupAssoc (m : List (List Nat × KegtronDevice)) (k : List Nat) :
    Option KegtronDevice :=
  match m.find? (fun e => e.1 = k) with
  | some e => some e.2
  | none => none

/-- The mutable state of a `KegtronScanner`: `_callbacks` (registration
order) and `_last_readings`. -/
structure ScannerState where
  callbacks : List Nat
  last_readings : List (List Nat × KegtronDevice)
  deriving DecidableEq, Repr

/-- Model of `KegtronScanner.on_device_found`: append the callback and return it. -/
def on_device_found (st : ScannerState) (callback : Nat) : ScannerState × Nat :=
  ({ st with callbacks := st.callbacks ++ [callback] }, callback)

/-- The device loop of `KegtronScanner.scan`: for each device, invoke every
callback inside a `try`/`except` that logs and continues, then write the
device into `_last_readings`. Returns the final map and the invocation
trace. -/
def scanLoop (behave : Nat → KegtronDevice → Except (List Nat) Unit)
    (callbacks : List Nat) :
    List (List Nat × KegtronDevice) → List KegtronDevice →
    List (List Nat × KegtronDevice) × List (Nat × KegtronDevice × Bool)
  | m, [] => (m, [])
  | m, d :: ds =>
    let events := callbacks.map (fun c =>
      match behave c d with
      | .ok _ => (c, d, true)
      | .error _ => (c, d, false))
    let rest := scanLoop behave callbacks (updateAssoc m d.device_id d) ds
    (rest.1, events ++ rest.2)

/-- Model of `KegtronScanner.scan`, given the devices the scan pass produced:
returns that device list, the new scanner state, and the callback
invocation trace. -/
def scan (behave : Nat → KegtronDevice → Except (List Nat) Unit)
    (st : ScannerState) (devices : List KegtronDevice) :
    List KegtronDevice × ScannerState × List (Nat × KegtronDevice × Bool) :=
  let r := scanLoop behave st.callbacks st.last_readings devices
  (devices, { st with last_readings := r.1 }, r.2)

/-! ### Re-encoding a reading (round-trip check)

Modelled from the spec: the source has no encoder; the round-trip property
re-encodes "the same semantic fields into a fresh 27-byte buffer" — the
three volumes as big-endian `uint16`, the packed status byte, and the label
NUL-padded to 20 bytes.  Fields that do not fit their slot (a volume
outside `0..65535`, a port field outside `0..3`, a label whose UTF-8
encoding exceeds 20 bytes) make the buffer unconstructible (`none`). -/

/-- Model of `v.to_bytes(2, byteorder='big')` for `0 ≤ v < 65536`. -/
def beBytes16 (v : ℤ) : List Nat :=
  [v.toNat / 256 % 256, v.toNat % 256]

/-- Modelled from the spec: re-encode a `KegtronReading`'s semantic fields
into a fresh 27-byte buffer, `none` when a field does not fit its slot. -/
def encode_reading (r : KegtronReading) : Option (List Nat) :=
  let lbl := utf8Encode r.beer_name
  if 0 ≤ r.keg_size_ml ∧ r.keg_size_ml < 65536 ∧
     0 ≤ r.volume_start_ml ∧ r.volume_start_ml < 65536 ∧
     0 ≤ r.volume_dispensed_ml ∧ r.volume_dispensed_ml < 65536 ∧
     0 ≤ r.port_count ∧ r.port_count < 4 ∧
     0 ≤ r.port_index ∧ r.port_index < 4 ∧
     lbl.length ≤ 20 then
    some (beBytes16 r.keg_size_ml ++ beBytes16 r.volume_start_ml ++
      beBytes16 r.volume_dispensed_ml ++
      [r.port_count.toNat * 64 + r.port_index.toNat * 16 + r.port_state.val] ++
      lbl ++ List.replicate (20 - lbl.length) 0)
  else none

/-! ### Concrete payloads used in the statements -/

/-- The example payload from the documentation: volumes `0x4C6E`, `0x4C6E`,
`0x1388`, status byte `0x41`, label `"Kolsch"` NUL-padded to 20 bytes. -/
def kolschBytes : List Nat :=
  [0x4C, 0x6E, 0x4C, 0x6E, 0x13, 0x88, 0x41,
   0x4B, 0x6F, 0x6C, 0x73, 0x63, 0x68, 0x00, 0x00,
   0x00, 0x00, 0x00, 0x00, 0x00, 0x00, 0x00, 0x00,
   0x00, 0x00, 0x00, 0x00]

/-- The code points of `"Kolsch"`. -/
def kolschLabel : List Nat := [0x4B, 0x6F, 0x6C, 0x73, 0x63, 0x68]

/-- The reading the example payload decodes to. -/
def kolschReading : KegtronReading :=
  { keg_size_ml := 19566
    volume_start_ml := 19566
    volume_dispensed_ml := 5000
    port_count := 1
    port_index := 0
    port_state := .ENABLED
    beer_name := kolschLabel }

/-- A 27-byte payload whose label region is 20 ill-formed UTF-8 bytes. -/
def badLabelBytes : List Nat :=
  [0, 0, 0, 0, 0, 0, 0] ++ List.replicate 20 0x80

/-- The reading `badLabelBytes` decodes to: every label byte becomes one
U+FFFD replacement character. -/
def badLabelReading : KegtronReading :=
  { keg_size_ml := 0
    volume_start_ml := 0
    volume_dispensed_ml := 0
    port_count := 0
    port_index := 0
    port_state := .DISABLED
    beer_name := List.replicate 20 0xFFFD }

/-! ## Lemmas about the parser -/

theorem PortState.ofNat?_mod_four (n : Nat) :
    PortState.ofNat? (n % 4) = some (PortState.ofTwoBits n) := by
  have h : n % 4 = 0 ∨ n % 4 = 1 ∨ n % 4 = 2 ∨ n % 4 = 3 := by omega
  rcases h with h | h | h | h <;>
    simp [PortState.ofNat?, PortState.ofTwoBits, h]

theorem PortState.val_ofTwoBits (n : Nat) :
    (PortState.ofTwoBits n).val = n % 4 := by
  have h : n % 4 = 0 ∨ n % 4 = 1 ∨ n % 4 = 2 ∨ n % 4 = 3 := by omega
  rcases h with h | h | h | h <;>
    simp [PortState.ofTwoBits, PortState.val, h]

theorem PortState.ofTwoBits_congr {m n : Nat} (h : m % 4 = n % 4) :
    PortState.ofTwoBits m = PortState.ofTwoBits n := by
  unfold PortState.ofTwoBits
  rw [h]

/-- Parsing a 27-byte payload, written with its seven header bytes and
20-byte label region explicit. -/
theorem parse_eq_of_shape (b0 b1 b2 b3 b4 b5 b6 : Nat) (label : List Nat)
    (hlen : label.length = 20) :
    parse_manufacturer_data (b0 :: b1 :: b2 :: b3 :: b4 :: b5 :: b6 :: label) =
      .ok { keg_size_ml := ((b0 * 256 + b1 : ℕ) : ℤ)
            volume_start_ml := ((b2 * 256 + b3 : ℕ) : ℤ)
            volume_dispensed_ml := ((b4 * 256 + b5 : ℕ) : ℤ)
            port_count := ((b6 / 64 % 4 : ℕ) : ℤ)
            port_index := ((b6 / 16 % 4 : ℕ) : ℤ)
            port_state := PortState.ofTwoBits b6
            beer_name := rstripNul (utf8DecodeReplace label) } := by
  have h27 : (b0 :: b1 :: b2 :: b3 :: b4 :: b5 :: b6 :: label).length =
      KEGTRON_DATA_LENGTH := by
    simp [KEGTRON_DATA_LENGTH, hlen]
  unfold parse_manufacturer_data
  rw [if_neg (by simp [h27])]
  have htake : label.take 20 = label := by
    rw [← hlen]; exact label.take_length
  simp only [List.drop, List.take, List.getD, beUint16, List.foldl,
    PortState.ofNat?_mod_four, htake]
  norm_num

/-- A list of length 27 splits into seven head bytes and a 20-byte tail. -/
theorem exists_shape_of_length27 (data : List Nat)
    (h : data.length = 27) :
    ∃ b0 b1 b2 b3 b4 b5 b6 label, data =
      b0 :: b1 :: b2 :: b3 :: b4 :: b5 :: b6 :: label ∧ label.length = 20 := by
  match data, h with
  | b0 :: b1 :: b2 :: b3 :: b4 :: b5 :: b6 :: label, h =>
    exact ⟨b0, b1, b2, b3, b4, b5, b6, label, rfl, by simpa using h⟩

/-- Every 27-byte payload parses successfully. -/
theorem parse_ok_of_length27 (data : List Nat) (h : data.length = 27) :
    ∃ r, parse_manufacturer_data data = .ok r := by
  obtain ⟨b0, b1, b2, b3, b4, b5, b6, label, rfl, hlen⟩ :=
    exists_shape_of_length27 data h
  exact ⟨_, parse_eq_of_shape b0 b1 b2 b3 b4 b5 b6 label hlen⟩

/-! ## Lemmas about the UTF-8 codec -/

theorem utf8DecodeReplace_ascii {b : Nat} (bs : List Nat) (h : b < 0x80) :
    utf8DecodeReplace (b :: bs) = b :: utf8DecodeReplace bs := by
  rw [utf8DecodeReplace.eq_def]
  dsimp only []
  rw [if_pos h]

theorem utf8DecodeReplace_two {b b1 : Nat} (bs : List Nat)
    (hb : 0xC2 ≤ b) (hb2 : b < 0xE0) (h1 : isCont b1) :
    utf8DecodeReplace (b :: b1 :: bs) =
      ((b - 0xC0) * 64 + (b1 - 0x80)) :: utf8DecodeReplace bs := by
  rw [utf8DecodeReplace.eq_def]
  dsimp only []
  rw [if_neg (by omega), if_neg (by omega), if_pos hb2, if_pos h1]

theorem utf8DecodeReplace_three {b b1 b2 : Nat} (bs : List Nat)
    (hb : 0xE0 ≤ b) (hb2 : b < 0xF0) (h1 : cont3Ok b b1) (h2 : isCont b2) :
    utf8DecodeReplace (b :: b1 :: b2 :: bs) =
      ((b - 0xE0) * 4096 + (b1 - 0x80) * 64 + (b2 - 0x80)) ::
        utf8DecodeReplace bs := by
  rw [utf8DecodeReplace.eq_def]
  dsimp only []
  rw [if_neg (by omega), if_neg (by omega), if_neg (by omega), if_pos hb2,
    if_pos h1, if_pos h2]

theorem utf8DecodeReplace_four {b b1 b2 b3 : Nat} (bs : List Nat)
    (hb : 0xF0 ≤ b) (hb2 : b < 0xF5) (h1 : cont4Ok b b1) (h2 : isCont b2)
    (h3 : isCont b3) :
    utf8DecodeReplace (b :: b1 :: b2 :: b3 :: bs) =
      ((b - 0xF0) * 262144 + (b1 - 0x80) * 4096 + (b2 - 0x80) * 64
        + (b3 - 0x80)) :: utf8DecodeReplace bs := by
  rw [utf8DecodeReplace.eq_def]
  dsimp only []
  rw [if_neg (by omega), if_neg (by omega), if_neg (by omega),
    if_neg (by omega), if_pos hb2, if_pos h1, if_pos h2, if_pos h3]

/-- Decoding consumes a scalar value's encoding from the front and emits
exactly that scalar. -/
theorem utf8DecodeReplace_encodeChar {c : Nat} (hc : isScalar c)
    (rest : List Nat) :
    utf8DecodeReplace (utf8EncodeChar c ++ rest) = c :: utf8DecodeReplace rest := by
  rcases Nat.lt_or_ge c 0x80 with h1 | h1
  · rw [utf8EncodeChar, if_pos h1, List.cons_append, List.nil_append,
      utf8DecodeReplace_ascii _ h1]
  rcases Nat.lt_or_ge c 0x800 with h2 | h2
  · rw [utf8EncodeChar, if_neg (by omega), if_pos h2, List.cons_append,
      List.cons_append, List.nil_append,
      utf8DecodeReplace_two _ (by omega) (by omega)
        (show isCont (0x80 + c % 64) by unfold isCont; omega)]
    congr 1
    omega
  rcases Nat.lt_or_ge c 0x10000 with h3 | h3
  · have hs : c < 0xD800 ∨ 0xE000 ≤ c := by
      rcases hc with h | h
      · exact Or.inl h
      · exact Or.inr h.1
    rw [utf8EncodeChar, if_neg (by omega), if_neg (by omega), if_pos h3,
      List.cons_append, List.cons_append, List.cons_append, List.nil_append,
      utf8DecodeReplace_three _ (by omega) (by omega)
        (show cont3Ok (0xE0 + c / 4096) (0x80 + c / 64 % 64) by
          unfold cont3Ok isCont
          split_ifs with he hd <;> omega)
        (show isCont (0x80 + c % 64) by unfold isCont; omega)]
    congr 1
    omega
  · have h4 : c < 0x110000 := by
      rcases hc with h | h
      · omega
      · exact h.2
    rw [utf8EncodeChar, if_neg (by omega), if_neg (by omega),
      if_neg (by omega), List.cons_append, List.cons_append,
      List.cons_append, List.cons_append, List.nil_append,
      utf8DecodeReplace_four _ (by omega) (by omega)
        (show cont4Ok (0xF0 + c / 262144) (0x80 + c / 4096 % 64) by
          unfold cont4Ok isCont
          split_ifs with he hd <;> omega)
        (show isCont (0x80 + c / 64 % 64) by unfold isCont; omega)
        (show isCont (0x80 + c % 64) by unfold isCont; omega)]
    congr 1
    omega

/-- Decoding an encoded string of scalars peels it off the front. -/
theorem utf8DecodeReplace_encode_append {s : List Nat}
    (hs : ∀ c ∈ s, isScalar c) (t : List Nat) :
    utf8DecodeReplace (utf8Encode s ++ t) = s ++ utf8DecodeReplace t := by
  induction s with
  | nil => simp [utf8Encode]
  | cons c cs ih =>
    rw [utf8Encode, List.append_assoc,
      utf8DecodeReplace_encodeChar (hs c (by simp)) _,
      ih (fun x hx => hs x (by simp [hx])), List.cons_append]

/-- NUL padding decodes to NUL code points. -/
theorem utf8DecodeReplace_replicate_zero (k : Nat) :
    utf8DecodeReplace (List.replicate k 0) = List.replicate k 0 := by
  induction k with
  | zero => rfl
  | succ n ih =>
    rw [List.replicate_succ, utf8DecodeReplace_ascii _ (by omega), ih,
      ← List.replicate_succ]

/-- Every code point the replacing decoder emits is a scalar value. -/
theorem isScalar_of_mem_utf8DecodeReplace {c : Nat} {bs : List Nat}
    (hmem : c ∈ utf8DecodeReplace bs) : isScalar c := by
  induction bs using utf8DecodeReplace.induct generalizing c
  all_goals
    rw [utf8DecodeReplace.eq_def] at hmem
  all_goals
    dsimp only [] at hmem
  all_goals
    simp_all only [if_pos, if_neg, ite_true, ite_false, if_true, if_false,
      List.mem_cons, List.mem_singleton, List.not_mem_nil]
  all_goals
    try simp_all only [isCont, cont3Ok, cont4Ok]
  all_goals
    rcases hmem with rfl | hmem <;>
      first
        | (unfold isScalar; omega)
        | (unfold isScalar
           rename_i hif hcont ih
           simp only [ite_prop_iff_or] at hif
           omega)
        | (unfold isScalar
           rename_i hif hcont2 hcont3 ih
           simp only [ite_prop_iff_or] at hif
           omega)
        | simp_all

/-! ## Lemmas about NUL stripping -/

theorem dropWhile_zero_replicate_append (k : Nat) (l : List Nat) :
    List.dropWhile (fun c => c == 0) (List.replicate k 0 ++ l) =
      List.dropWhile (fun c => c == 0) l := by
  induction k with
  | zero => rfl
  | succ n ih =>
    rw [List.replicate_succ, List.cons_append, List.dropWhile_cons_of_pos (by simp)]
    exact ih

theorem dropWhile_idem (p : Nat → Bool) (l : List Nat) :
    List.dropWhile p (List.dropWhile p l) = List.dropWhile p l := by
  induction l with
  | nil => rfl
  | cons a l ih =>
    by_cases h : p a
    · rw [List.dropWhile_cons_of_pos h]
      exact ih
    · rw [List.dropWhile_cons_of_neg h, List.dropWhile_cons_of_neg h]

/-- Trailing NUL padding is invisible to `rstrip`. -/
theorem rstripNul_append_replicate (s : List Nat) (k : Nat) :
    rstripNul (s ++ List.replicate k 0) = rstripNul s := by
  unfold rstripNul
  rw [List.reverse_append, List.reverse_replicate,
    dropWhile_zero_replicate_append]

/-- Stripping is idempotent. -/
theorem rstripNul_idem (s : List Nat) :
    rstripNul (rstripNul s) = rstripNul s := by
  unfold rstripNul
  rw [List.reverse_reverse, dropWhile_idem]

/-- Stripping only removes elements. -/
theorem mem_of_mem_rstripNul {c : Nat} {s : List Nat}
    (h : c ∈ rstripNul s) : c ∈ s := by
  unfold rstripNul at h
  rw [List.mem_reverse] at h
  have h2 := (List.dropWhile_sublist (l := s.reverse)
    (p := fun c => c == 0)).mem h
  rwa [List.mem_reverse] at h2

/-- Decoding, stripping, re-encoding, NUL-padding, and decoding again
reproduces the stripped label. -/
theorem rstrip_decode_encode_pad {s : List Nat}
    (hs : ∀ c ∈ s, isScalar c) (k : Nat) :
    rstripNul (utf8DecodeReplace (utf8Encode s ++ List.replicate k 0)) =
      rstripNul s := by
  rw [utf8DecodeReplace_encode_append hs, utf8DecodeReplace_replicate_zero,
    rstripNul_append_replicate]

/-! ## Claim theorems -/

/-- C1: every 27-byte payload decodes to the Reading whose volumes are the
big-endian uint16 fields at offsets 0–1, 2–3, 4–5, whose port fields are
bits 7–6, 5–4 and 1–0 of the status byte at offset 6, and whose label is the
replacement-decoded UTF-8 text of bytes 7–26 with trailing NULs stripped;
and in particular the example payload decodes to
keg_size_ml=19566, volume_start_ml=19566, volume_dispensed_ml=5000,
port_count=1, port_index=0, port_state=ENABLED, label="Kolsch". -/
theorem claim_C1_decode_layout :
    (∀ (b0 b1 b2 b3 b4 b5 b6 : Nat) (label : List Nat),
      label.length = 20 →
      parse_manufacturer_data (b0 :: b1 :: b2 :: b3 :: b4 :: b5 :: b6 :: label) =
        .ok { keg_size_ml := ((b0 * 256 + b1 : ℕ) : ℤ)
              volume_start_ml := ((b2 * 256 + b3 : ℕ) : ℤ)
              volume_dispensed_ml := ((b4 * 256 + b5 : ℕ) : ℤ)
              port_count := ((b6 / 64 % 4 : ℕ) : ℤ)
              port_index := ((b6 / 16 % 4 : ℕ) : ℤ)
              port_state := PortState.ofTwoBits b6
              beer_name := rstripNul (utf8DecodeReplace label) }) ∧
    parse_manufacturer_data kolschBytes = .ok kolschReading := by
  refine ⟨parse_eq_of_shape, ?_⟩
  rfl

/-- Witness for C1 at the example payload. -/
theorem claim_C1_decode_layout_witness :
    (kolschLabel ++ List.replicate 14 0).length = 20 ∧
    parse_manufacturer_data (0x4C :: 0x6E :: 0x4C :: 0x6E :: 0x13 :: 0x88 ::
        0x41 :: (kolschLabel ++ List.replicate 14 0)) = .ok kolschReading :=
  ⟨by decide,
   claim_C1_decode_layout.1 0x4C 0x6E 0x4C 0x6E 0x13 0x88 0x41
     (kolschLabel ++ List.replicate 14 0) (by decide)⟩

/-- C2: any input whose length differs from 27 fails with the
invalid-length error carrying expected length 27 and the actual length
(checked in particular at lengths 0, 10, 26, 28, 30), and no input of
length 27 fails the length check. -/
theorem claim_C2_invalid_length :
    (∀ data : List Nat, data.length ≠ 27 →
      parse_manufacturer_data data = .error (.invalidLength 27 data.length)) ∧
    parse_manufacturer_data [] = .error (.invalidLength 27 0) ∧
    parse_manufacturer_data (List.replicate 10 0) = .error (.invalidLength 27 10) ∧
    parse_manufacturer_data (List.replicate 26 0) = .error (.invalidLength 27 26) ∧
    parse_manufacturer_data (List.replicate 28 0) = .error (.invalidLength 27 28) ∧
    parse_manufacturer_data (List.replicate 30 0) = .error (.invalidLength 27 30) ∧
    (∀ data : List Nat, data.length = 27 →
      ∀ e a, parse_manufacturer_data data ≠ .error (.invalidLength e a)) := by
  refine ⟨?_, by rfl, by rfl, by rfl, by rfl, by rfl, ?_⟩
  · intro data h
    rw [parse_manufacturer_data, if_pos (by simpa [KEGTRON_DATA_LENGTH] using h)]
    rfl
  · intro data h e a hcontra
    obtain ⟨r, hr⟩ := parse_ok_of_length27 data h
    rw [hr] at hcontra
    exact Except.noConfusion hcontra

/-- Witness for C2 at a length-1 input and a length-27 input. -/
theorem claim_C2_invalid_length_witness :
    ([0] : List Nat).length ≠ 27 ∧
    parse_manufacturer_data [0] = .error (.invalidLength 27 1) ∧
    kolschBytes.length = 27 ∧
    parse_manufacturer_data kolschBytes ≠ .error (.invalidLength 27 27) :=
  ⟨by decide, claim_C2_invalid_length.1 [0] (by decide), by decide,
   claim_C2_invalid_length.2.2.2.2.2.2 kolschBytes (by decide) 27 27⟩

/-- C10: decoding never reaches the catch-all failure branch on a 27-byte
input: parsing always succeeds, because replacement UTF-8 decoding is total
and the two-bit-masked port state value always yields a `PortState`. -/
theorem claim_C10_parse_total :
    (∀ data : List Nat, data.length = 27 →
      ∃ r, parse_manufacturer_data data = .ok r) ∧
    (∀ n : Nat, (PortState.ofNat? (n % 4)).isSome = true) := by
  refine ⟨parse_ok_of_length27, ?_⟩
  intro n
  rw [PortState.ofNat?_mod_four]
  rfl

/-- Witness for C10 at the example payload. -/
theorem claim_C10_parse_total_witness :
    kolschBytes.length = 27 ∧
    ∃ r, parse_manufacturer_data kolschBytes = .ok r :=
  ⟨by decide, claim_C10_parse_total.1 kolschBytes (by decide)⟩

/-- C4: `volume_remaining` is the clamped difference `max(0, start −
dispensed)` and never negative (in particular start 19550, dispensed 20000
gives 0), and `percent_remaining` is `remaining / start * 100` for positive
start and exactly 0 for `start ≤ 0` whatever the dispensed volume. -/
theorem claim_C4_derived_volumes :
    (∀ r : KegtronReading,
      volume_remaining_ml r = max 0 (r.volume_start_ml - r.volume_dispensed_ml) ∧
      0 ≤ volume_remaining_ml r ∧
      (0 < r.volume_start_ml →
        percent_remaining r =
          (volume_remaining_ml r : ℚ) / (r.volume_start_ml : ℚ) * 100) ∧
      (r.volume_start_ml ≤ 0 → percent_remaining r = 0)) ∧
    volume_remaining_ml
      { keg_size_ml := 19550, volume_start_ml := 19550,
        volume_dispensed_ml := 20000, port_count := 1, port_index := 0,
        port_state := .ENABLED, beer_name := [] } = 0 := by
  refine ⟨?_, by rfl⟩
  intro r
  refine ⟨rfl, le_max_left 0 _, ?_, ?_⟩
  · intro h
    rw [percent_remaining, if_neg (by omega)]
  · intro h
    rw [percent_remaining, if_pos h]

/-- Witness for C4: both `percent_remaining` branches at concrete
readings. -/
theorem claim_C4_derived_volumes_witness :
    (0 : ℤ) < 19550 ∧
    percent_remaining
      { keg_size_ml := 19550, volume_start_ml := 19550,
        volume_dispensed_ml := 5000, port_count := 1, port_index := 0,
        port_state := .ENABLED, beer_name := [] } =
      (volume_remaining_ml
        { keg_size_ml := 19550, volume_start_ml := 19550,
          volume_dispensed_ml := 5000, port_count := 1, port_index := 0,
          port_state := .ENABLED, beer_name := [] } : ℚ) / (19550 : ℚ) * 100 ∧
    (0 : ℤ) ≤ 0 ∧
    percent_remaining
      { keg_size_ml := 19550, volume_start_ml := 0,
        volume_dispensed_ml := 5000, port_count := 1, port_index := 0,
        port_state := .ENABLED, beer_name := [] } = 0 :=
  ⟨by decide,
   (claim_C4_derived_volumes.1 _).2.2.1 (by decide),
   by decide,
   (claim_C4_derived_volumes.1 _).2.2.2 (by decide)⟩

/-- C5: `detect_new_keg` is true exactly when the start volume changed or
the dispensed counter dropped by strictly more than the threshold; a drop
of exactly the threshold (equal starts) is not a new-keg signal. -/
theorem claim_C5_detect_new_keg :
    (∀ cs ps cd pd t : ℤ,
      detect_new_keg cs ps cd pd t = true ↔ cs ≠ ps ∨ pd - cd > t) ∧
    (∀ s cd t : ℤ, detect_new_keg s s cd (cd + t) t = false) ∧
    detect_new_keg 19550 18927 0 5000 1000 = true ∧
    detect_new_keg 19550 19550 100 5000 1000 = true ∧
    detect_new_keg 19550 19550 5100 5000 1000 = false := by
  refine ⟨?_, ?_, by rfl, by rfl, by rfl⟩
  · intro cs ps cd pd t
    unfold detect_new_keg
    split_ifs with h1 h2
    · simp [h1]
    · simp [h1, h2]
    · simp [h1, h2]
  · intro s cd t
    unfold detect_new_keg
    rw [if_neg (by omega), if_neg (by omega)]

/-- C6: `detect_pour` returns the dispensed delta exactly when it reaches
the minimum-pour threshold and nothing otherwise; with the default
threshold 30 a decrease is never reported. -/
theorem claim_C6_detect_pour :
    (∀ c p m : ℤ,
      detect_pour c p m = if c - p ≥ m then some (c - p) else none) ∧
    (∀ c p : ℤ, c < p → detect_pour c p 30 = none) ∧
    detect_pour 5100 5000 30 = some 100 ∧
    detect_pour 5010 5000 30 = none ∧
    detect_pour 5000 5100 30 = none := by
  refine ⟨?_, ?_, by rfl, by rfl, by rfl⟩
  · intro c p m
    rfl
  · intro c p h
    rw [detect_pour, if_neg (by omega)]

/-- Witness for C6 at a decreasing pair. -/
theorem claim_C6_detect_pour_witness :
    (5000 : ℤ) < 5100 ∧ detect_pour 5000 5100 30 = none :=
  ⟨by decide, claim_C6_detect_pour.2.1 5000 5100 (by decide)⟩

/-- C9: `is_low` always uses the default threshold 15.0 (a property access
passes no arguments, so the parameter cannot be overridden), and holds
exactly when `percent_remaining < 15`. -/
theorem claim_C9_is_low_default :
    ∀ r : KegtronReading,
      is_low r = is_low_threshold r 15 ∧
      (is_low r = true ↔ percent_remaining r < 15) := by
  intro r
  refine ⟨rfl, ?_⟩
  unfold is_low is_low_threshold
  exact decide_eq_true_iff

/-- Evaluation of `beBytes16` at a cast natural. -/
theorem beBytes16_natCast (n : Nat) :
    beBytes16 (n : ℤ) = [n / 256 % 256, n % 256] := by
  unfold beBytes16
  rw [Int.toNat_ofNat]

/-- C3 (counterexample): a 27-byte payload whose label region is twenty
`0x80` bytes decodes fine, but its label becomes twenty U+FFFD replacement
characters whose UTF-8 re-encoding is 60 bytes — it cannot be NUL-padded
into the 20-byte label slot, so the claimed re-encode step is impossible
for this valid payload. -/
theorem claim_C3_roundtrip_counterexample :
    badLabelBytes.length = 27 ∧
    parse_manufacturer_data badLabelBytes = .ok badLabelReading ∧
    (utf8Encode badLabelReading.beer_name).length = 60 ∧
    encode_reading badLabelReading = none := by
  refine ⟨by decide, by rfl, by decide, by decide⟩

/-- C3 (amended): for every 27-byte payload whose decoded label re-encodes
into at most 20 UTF-8 bytes — in particular every payload whose label
region is valid UTF-8 — decoding, re-encoding the semantic fields into a
fresh 27-byte buffer and decoding again yields the identical Reading. -/
theorem claim_C3_roundtrip_amended :
    ∀ (data : List Nat) (r : KegtronReading),
      parse_manufacturer_data data = .ok r →
      (∀ b ∈ data, b < 256) →
      (utf8Encode r.beer_name).length ≤ 20 →
      ∃ data2, encode_reading r = some data2 ∧
        parse_manufacturer_data data2 = .ok r := by
  intro data r hok hbytes hfit
  have hlen : data.length = 27 := by
    by_contra hne
    rw [parse_manufacturer_data,
      if_pos (by simpa [KEGTRON_DATA_LENGTH] using hne)] at hok
    exact Except.noConfusion hok
  obtain ⟨b0, b1, b2, b3, b4, b5, b6, label, rfl, hlab⟩ :=
    exists_shape_of_length27 data hlen
  rw [parse_eq_of_shape b0 b1 b2 b3 b4 b5 b6 label hlab] at hok
  have hr : r = { keg_size_ml := ((b0 * 256 + b1 : ℕ) : ℤ)
                  volume_start_ml := ((b2 * 256 + b3 : ℕ) : ℤ)
                  volume_dispensed_ml := ((b4 * 256 + b5 : ℕ) : ℤ)
                  port_count := ((b6 / 64 % 4 : ℕ) : ℤ)
                  port_index := ((b6 / 16 % 4 : ℕ) : ℤ)
                  port_state := PortState.ofTwoBits b6
                  beer_name := rstripNul (utf8DecodeReplace label) } :=
    (Except.ok.inj hok).symm
  subst hr
  have hb0 : b0 < 256 := hbytes b0 (by simp)
  have hb1 : b1 < 256 := hbytes b1 (by simp)
  have hb2 : b2 < 256 := hbytes b2 (by simp)
  have hb3 : b3 < 256 := hbytes b3 (by simp)
  have hb4 : b4 < 256 := hbytes b4 (by simp)
  have hb5 : b5 < 256 := hbytes b5 (by simp)
  -- the decoded, stripped label consists of scalar values
  have hscal : ∀ c ∈ rstripNul (utf8DecodeReplace label), isScalar c :=
    fun c hc => isScalar_of_mem_utf8DecodeReplace (mem_of_mem_rstripNul hc)
  have hlbl : (utf8Encode (rstripNul (utf8DecodeReplace label))).length ≤ 20 := by
    simpa using hfit
  apply Exists.intro
  constructor
  · rw [encode_reading]
    dsimp only []
    rw [if_pos ?side]
    case side =>
      refine ⟨by positivity, by exact_mod_cast (by omega : b0 * 256 + b1 < 65536),
        by positivity, by exact_mod_cast (by omega : b2 * 256 + b3 < 65536),
        by positivity, by exact_mod_cast (by omega : b4 * 256 + b5 < 65536),
        by positivity, by exact_mod_cast (by omega : b6 / 64 % 4 < 4),
        by positivity, by exact_mod_cast (by omega : b6 / 16 % 4 < 4),
        hlbl⟩
  · -- the fresh buffer has the 7-byte header and a 20-byte label region
    rw [beBytes16_natCast, beBytes16_natCast, beBytes16_natCast]
    have e0 : (b0 * 256 + b1) / 256 % 256 = b0 := by omega
    have e1 : (b0 * 256 + b1) % 256 = b1 := by omega
    have e2 : (b2 * 256 + b3) / 256 % 256 = b2 := by omega
    have e3 : (b2 * 256 + b3) % 256 = b3 := by omega
    have e4 : (b4 * 256 + b5) / 256 % 256 = b4 := by omega
    have e5 : (b4 * 256 + b5) % 256 = b5 := by omega
    rw [e0, e1, e2, e3, e4, e5]
    simp only [Int.toNat_ofNat, PortState.val_ofTwoBits, List.cons_append,
      List.nil_append]
    rw [parse_eq_of_shape _ _ _ _ _ _ _ _
      (by simp [List.length_append, List.length_replicate]; omega)]
    have hmod : (b6 / 64 % 4 * 64 + b6 / 16 % 4 * 16 + b6 % 4) % 4 = b6 % 4 := by
      omega
    simp only [Except.ok.injEq, KegtronReading.mk.injEq]
    refine ⟨trivial, trivial, trivial,
      by exact_mod_cast congrArg (Nat.cast : ℕ → ℤ) (by omega), 
      by exact_mod_cast congrArg (Nat.cast : ℕ → ℤ) (by omega),
      PortState.ofTwoBits_congr hmod, ?_⟩
    rw [rstrip_decode_encode_pad hscal, rstripNul_idem]

/-- Witness for the amended C3 at the example payload. -/
theorem claim_C3_roundtrip_amended_witness :
    parse_manufacturer_data kolschBytes = .ok kolschReading ∧
    (∀ b ∈ kolschBytes, b < 256) ∧
    (utf8Encode kolschReading.beer_name).length ≤ 20 ∧
    ∃ data2, encode_reading kolschReading = some data2 ∧
      parse_manufacturer_data data2 = .ok kolschReading :=
  ⟨rfl, by decide, by decide,
   claim_C3_roundtrip_amended kolschBytes kolschReading rfl (by decide)
     (by decide)⟩

/-! ## Lemmas about the identifier search -/

theorem matchPrefixCI_sound :
    ∀ (p s rest : List Nat), matchPrefixCI p s = some rest →
      ∃ m, s = m ++ rest ∧ m.map lowerAscii = p := by
  intro p
  induction p with
  | nil =>
    intro s rest h
    exact ⟨[], by simpa using Option.some.inj h, rfl⟩
  | cons a ps ih =>
    intro s rest h
    cases s with
    | nil => exact absurd h (by simp [matchPrefixCI])
    | cons c cs =>
      rw [matchPrefixCI.eq_def] at h
      dsimp only [] at h
      by_cases hc : lowerAscii c = a
      · rw [if_pos hc] at h
        obtain ⟨m, rfl, hm⟩ := ih cs rest h
        exact ⟨c :: m, rfl, by simp [hm, hc]⟩
      · rw [if_neg hc] at h
        exact Option.noConfusion h

theorem matchPrefixCI_complete :
    ∀ (m t : List Nat), matchPrefixCI (m.map lowerAscii) (m ++ t) = some t := by
  intro m
  induction m with
  | nil => intro t; rfl
  | cons c cs ih =>
    intro t
    rw [List.map_cons, List.cons_append, matchPrefixCI.eq_def]
    dsimp only []
    rw [if_pos rfl]
    exact ih t

theorem tryMatchAt_sound {s hx0 : List Nat} (h : tryMatchAt s = some hx0) :
    ∃ m ws rest1, s = m ++ ws ++ hx0 ++ rest1 ∧
      m.map lowerAscii = markerLower ∧ ws ≠ [] ∧ (∀ c ∈ ws, isReSpace c) ∧
      hx0 ≠ [] ∧ (∀ c ∈ hx0, isHexDigit c) := by
  unfold tryMatchAt at h
  cases hm : matchPrefixCI markerLower s with
  | none =>
    rw [hm] at h
    exact Option.noConfusion h
  | some rest =>
    rw [hm] at h
    dsimp only [] at h
    by_cases hcond : rest.takeWhile isReSpace ≠ [] ∧
        (rest.dropWhile isReSpace).takeWhile isHexDigit ≠ []
    · rw [if_pos hcond] at h
      obtain ⟨m, rfl, hmk⟩ := matchPrefixCI_sound _ _ _ hm
      have hx : hx0 = (rest.dropWhile isReSpace).takeWhile isHexDigit :=
        (Option.some.inj h).symm
      refine ⟨m, rest.takeWhile isReSpace,
        (rest.dropWhile isReSpace).dropWhile isHexDigit, ?_, hmk, hcond.1,
        ?_, ?_, ?_⟩
      · rw [hx, List.append_assoc, List.append_assoc,
          List.takeWhile_append_dropWhile, List.takeWhile_append_dropWhile]
      · intro c hc
        exact List.mem_takeWhile_imp hc
      · rw [hx]; exact hcond.2
      · intro c hc
        rw [hx] at hc
        exact List.mem_takeWhile_imp hc
    · rw [if_neg hcond] at h
      exact Option.noConfusion h

theorem searchKegtron_sound :
    ∀ {s hx0 : List Nat}, searchKegtron s = some hx0 →
      ∃ pre m ws rest1, s = pre ++ m ++ ws ++ hx0 ++ rest1 ∧
        m.map lowerAscii = markerLower ∧ ws ≠ [] ∧ (∀ c ∈ ws, isReSpace c) ∧
        hx0 ≠ [] ∧ (∀ c ∈ hx0, isHexDigit c) := by
  intro s
  induction s with
  | nil => intro hx0 h; exact Option.noConfusion h
  | cons c cs ih =>
    intro hx0 h
    rw [searchKegtron.eq_def] at h
    dsimp only [] at h
    cases ht : tryMatchAt (c :: cs) with
    | some hfound =>
      rw [ht] at h
      obtain rfl : hfound = hx0 := Option.some.inj h
      obtain ⟨m, ws, rest1, heq, h2, h3, h4, h5, h6⟩ := tryMatchAt_sound ht
      exact ⟨[], m, ws, rest1, by simpa using heq, h2, h3, h4, h5, h6⟩
    | none =>
      rw [ht] at h
      obtain ⟨pre, m, ws, rest1, heq, h2, h3, h4, h5, h6⟩ := ih h
      exact ⟨c :: pre, m, ws, rest1, by simp [heq], h2, h3, h4, h5, h6⟩

theorem dropWhile_append_of_forall {p : Nat → Bool} :
    ∀ (l t : List Nat), (∀ c ∈ l, p c) →
      List.dropWhile p (l ++ t) = List.dropWhile p t := by
  intro l
  induction l with
  | nil => intro t _; rfl
  | cons a l ih =>
    intro t hall
    rw [List.cons_append, List.dropWhile_cons_of_pos (hall a (by simp))]
    exact ih t (fun c hc => hall c (by simp [hc]))

theorem hexDigit_not_reSpace {c : Nat} (h : isHexDigit c = true) :
    ¬ isReSpace c = true := by
  simp only [isHexDigit, Bool.or_eq_true, Bool.and_eq_true,
    decide_eq_true_eq] at h
  simp only [isReSpace, List.mem_cons, List.not_mem_nil, or_false,
    decide_eq_true_eq]
  omega

theorem tryMatchAt_complete (m ws hx rest : List Nat)
    (hmk : m.map lowerAscii = markerLower) (hws : ws ≠ [])
    (hsp : ∀ c ∈ ws, isReSpace c) (hhx : hx ≠ [])
    (hhex : ∀ c ∈ hx, isHexDigit c) :
    (tryMatchAt (m ++ ws ++ hx ++ rest)).isSome = true := by
  unfold tryMatchAt
  have hm : matchPrefixCI markerLower (m ++ (ws ++ (hx ++ rest))) =
      some (ws ++ (hx ++ rest)) := by
    rw [← hmk]
    exact matchPrefixCI_complete m _
  rw [List.append_assoc, List.append_assoc, hm]
  dsimp only []
  cases ws with
  | nil => exact absurd rfl hws
  | cons w ws1 =>
    cases hx with
    | nil => exact absurd rfl hhx
    | cons h0 hx1 =>
      have hw : isReSpace w := hsp w (by simp)
      have hh0 : isHexDigit h0 := hhex h0 (by simp)
      rw [if_pos ?cond]
      case cond =>
        constructor
        · rw [List.cons_append, List.takeWhile_cons_of_pos hw]
          exact List.cons_ne_nil _ _
        · rw [dropWhile_append_of_forall _ _ hsp, List.cons_append,
            List.dropWhile_cons_of_neg (hexDigit_not_reSpace hh0),
            List.takeWhile_cons_of_pos hh0]
          exact List.cons_ne_nil _ _
      rfl

theorem searchKegtron_cons (c : Nat) (cs : List Nat) :
    searchKegtron (c :: cs) =
      match tryMatchAt (c :: cs) with
      | some h => some h
      | none => searchKegtron cs := rfl

theorem searchKegtron_complete :
    ∀ (pre m ws hx rest : List Nat), m.map lowerAscii = markerLower →
      ws ≠ [] → (∀ c ∈ ws, isReSpace c) → hx ≠ [] →
      (∀ c ∈ hx, isHexDigit c) →
      (searchKegtron (pre ++ m ++ ws ++ hx ++ rest)).isSome = true := by
  intro pre
  induction pre with
  | nil =>
    intro m ws hx rest hmk hws hsp hhx hhex
    cases m with
    | nil => simp [markerLower] at hmk
    | cons c m1 =>
      have htm := tryMatchAt_complete (c :: m1) ws hx rest hmk hws hsp hhx hhex
      rw [List.cons_append, List.cons_append, List.cons_append] at htm
      rw [List.nil_append, List.cons_append, List.cons_append,
        List.cons_append, searchKegtron_cons]
      cases ht : tryMatchAt (c :: (m1 ++ ws ++ hx ++ rest)) with
      | some v => simp [ht]
      | none => rw [ht] at htm; simp at htm
  | cons c pre1 ih =>
    intro m ws hx rest hmk hws hsp hhx hhex
    rw [List.cons_append, List.cons_append, List.cons_append,
      List.cons_append, searchKegtron_cons]
    cases ht : tryMatchAt (c :: (pre1 ++ m ++ ws ++ hx ++ rest)) with
    | some v => simp [ht]
    | none =>
      dsimp only []
      exact ih m ws hx rest hmk hws hsp hhx hhex

/-- C7: `extract_device_id` searches case-insensitively for the marker word
followed by whitespace and a hexadecimal run and returns that run
upper-cased ("Kegtron F1EDC6" ↦ "F1EDC6", "kegtron abc123" ↦ "ABC123");
it returns nothing on an empty name, a name without the marker, or a marker
with no following hex run; every success decomposes the name into
prefix · marker · whitespace⁺ · hex⁺ · rest with the hex run upper-cased,
and every name of that shape succeeds. -/
theorem claim_C7_extract_identifier :
    extract_device_id [75, 101, 103, 116, 114, 111, 110, 32, 70, 49, 69, 68, 67, 54] =
      some [70, 49, 69, 68, 67, 54] ∧
    extract_device_id [107, 101, 103, 116, 114, 111, 110, 32, 97, 98, 99, 49, 50, 51] =
      some [65, 66, 67, 49, 50, 51] ∧
    extract_device_id [75, 101, 103, 116, 114, 111, 110] = none ∧
    extract_device_id [] = none ∧
    (∀ (name h : List Nat), extract_device_id name = some h →
      ∃ pre m ws hx rest1, name = pre ++ m ++ ws ++ hx ++ rest1 ∧
        m.map lowerAscii = markerLower ∧ ws ≠ [] ∧ (∀ c ∈ ws, isReSpace c) ∧
        hx ≠ [] ∧ (∀ c ∈ hx, isHexDigit c) ∧ h = hx.map upperAscii) ∧
    (∀ (pre m ws hx rest1 : List Nat), m.map lowerAscii = markerLower →
      ws ≠ [] → (∀ c ∈ ws, isReSpace c) → hx ≠ [] →
      (∀ c ∈ hx, isHexDigit c) →
      (extract_device_id (pre ++ m ++ ws ++ hx ++ rest1)).isSome = true) := by
  refine ⟨by decide, by decide, by decide, by decide, ?_, ?_⟩
  · intro name h hex
    rw [extract_device_id] at hex
    by_cases hn : name = []
    · rw [if_pos hn] at hex
      exact Option.noConfusion hex
    · rw [if_neg hn] at hex
      obtain ⟨hx0, hs, hmap⟩ := Option.map_eq_some'.mp hex
      obtain ⟨pre, m, ws, rest1, heq, h2, h3, h4, h5, h6⟩ :=
        searchKegtron_sound hs
      exact ⟨pre, m, ws, hx0, rest1, heq, h2, h3, h4, h5, h6, hmap.symm⟩
  · intro pre m ws hx rest1 hmk hws hsp hhx hhex
    have hne : pre ++ m ++ ws ++ hx ++ rest1 ≠ [] := by
      intro h0
      rcases m with _ | ⟨c, m1⟩
      · simp [markerLower] at hmk
      · simp [List.append_eq_nil] at h0
    rw [extract_device_id, if_neg hne]
    have hs := searchKegtron_complete pre m ws hx rest1 hmk hws hsp hhx hhex
    cases hsk : searchKegtron (pre ++ m ++ ws ++ hx ++ rest1) with
    | some v => simp [hsk]
    | none => rw [hsk] at hs; simp at hs

/-- Witness for C7: one successful decomposition and one successful
shape-based extraction. -/
theorem claim_C7_extract_identifier_witness :
    (∃ pre m ws hx rest1,
      ([75, 101, 103, 116, 114, 111, 110, 32, 70, 49, 69, 68, 67, 54] : List Nat) =
        pre ++ m ++ ws ++ hx ++ rest1 ∧
      m.map lowerAscii = markerLower ∧ ws ≠ [] ∧ (∀ c ∈ ws, isReSpace c) ∧
      hx ≠ [] ∧ (∀ c ∈ hx, isHexDigit c) ∧
      ([70, 49, 69, 68, 67, 54] : List Nat) = hx.map upperAscii) ∧
    (extract_device_id ([] ++ [75, 101, 103, 116, 114, 111, 110] ++ [32] ++
      [70, 49, 69, 68, 67, 54] ++ [])).isSome = true :=
  ⟨claim_C7_extract_identifier.2.2.2.2.1 _ _ (by decide),
   claim_C7_extract_identifier.2.2.2.2.2 [] [75, 101, 103, 116, 114, 111, 110]
     [32] [70, 49, 69, 68, 67, 54] [] (by decide) (by decide) (by decide)
     (by decide) (by decide)⟩

/-! ## Lemmas about the tracking scanner -/

theorem scanLoop_cons (behave : Nat → KegtronDevice → Except (List Nat) Unit)
    (cbs : List Nat) (m : List (List Nat × KegtronDevice))
    (d : KegtronDevice) (ds : List KegtronDevice) :
    scanLoop behave cbs m (d :: ds) =
      ((scanLoop behave cbs (updateAssoc m d.device_id d) ds).1,
        cbs.map (fun c =>
          match behave c d with
          | .ok _ => (c, d, true)
          | .error _ => (c, d, false)) ++
          (scanLoop behave cbs (updateAssoc m d.device_id d) ds).2) := rfl

theorem scanLoop_fst (behave : Nat → KegtronDevice → Except (List Nat) Unit)
    (cbs : List Nat) :
    ∀ (ds : List KegtronDevice) (m : List (List Nat × KegtronDevice)),
      (scanLoop behave cbs m ds).1 =
        ds.foldl (fun m d => updateAssoc m d.device_id d) m := by
  intro ds
  induction ds with
  | nil => intro m; rfl
  | cons d ds ih =>
    intro m
    rw [scanLoop_cons, List.foldl_cons]
    exact ih _

theorem scanLoop_trace (behave : Nat → KegtronDevice → Except (List Nat) Unit)
    (cbs : List Nat) :
    ∀ (ds : List KegtronDevice) (m : List (List Nat × KegtronDevice)),
      (scanLoop behave cbs m ds).2.map (fun e => (e.1, e.2.1)) =
        ds.flatMap (fun d => cbs.map (fun c => (c, d))) := by
  intro ds
  induction ds with
  | nil => intro m; rfl
  | cons d ds ih =>
    intro m
    rw [scanLoop_cons, List.flatMap_cons]
    dsimp only []
    rw [List.map_append, List.map_map, ih]
    congr 1
    refine List.map_congr_left ?_
    intro c _
    dsimp only [Function.comp_apply]
    cases behave c d <;> rfl

theorem lookup_map_replace (k : List Nat) (v : KegtronDevice) :
    ∀ m : List (List Nat × KegtronDevice), m.any (fun e => e.1 = k) = true →
      lookupAssoc (m.map (fun e => if e.1 = k then (k, v) else e)) k = some v := by
  intro m
  induction m with
  | nil => intro h; simp at h
  | cons e m ih =>
    intro h
    rw [List.map_cons]
    by_cases he : e.1 = k
    · rw [if_pos he]
      rw [lookupAssoc, List.find?_cons_of_pos _ (by simp)]
    · rw [if_neg he]
      rw [lookupAssoc, List.find?_cons_of_neg _ (by simp [he])]
      have h2 : m.any (fun e => e.1 = k) = true := by
        simpa [List.any_cons, he] using h
      have := ih h2
      rwa [lookupAssoc] at this

theorem lookup_append_new (k : List Nat) (v : KegtronDevice) :
    ∀ m : List (List Nat × KegtronDevice), m.any (fun e => e.1 = k) = false →
      lookupAssoc (m ++ [(k, v)]) k = some v := by
  intro m
  induction m with
  | nil => intro _; rw [List.nil_append, lookupAssoc,
      List.find?_cons_of_pos _ (by simp)]
  | cons e m ih =>
    intro h
    simp only [List.any_cons, Bool.or_eq_false_iff,
      decide_eq_false_iff_not] at h
    rw [List.cons_append, lookupAssoc,
      List.find?_cons_of_neg _ (by simp [h.1])]
    have := ih h.2
    rwa [lookupAssoc] at this

/-- Python `d[k] = v` followed by `d.get(k)` yields `v` (overwrite). -/
theorem lookupAssoc_updateAssoc (m : List (List Nat × KegtronDevice))
    (k : List Nat) (v : KegtronDevice) :
    lookupAssoc (updateAssoc m k v) k = some v := by
  rw [updateAssoc]
  by_cases h : m.any (fun e => e.1 = k) = true
  · rw [if_pos h]
    exact lookup_map_replace k v m h
  · rw [if_neg h]
    exact lookup_append_new k v m (Bool.eq_false_iff.mpr h)

/-- C8: one scan pass invokes every registered observer, in registration
order, once per device; observer failures are caught and change neither the
returned device list, the invocation trace, nor the tracking map; after the
observers the tracking map entry for the device identifier is updated
(overwriting any prior entry); and the full device list is returned even
when an observer raises on every call. -/
theorem claim_C8_scan_observer_isolation :
    (∀ (behave : Nat → KegtronDevice → Except (List Nat) Unit)
      (st : ScannerState) (ds : List KegtronDevice),
      (scan behave st ds).1 = ds) ∧
    (∀ (behave : Nat → KegtronDevice → Except (List Nat) Unit)
      (st : ScannerState) (ds : List KegtronDevice),
      ((scan behave st ds).2.2).map (fun e => (e.1, e.2.1)) =
        ds.flatMap (fun d => st.callbacks.map (fun c => (c, d)))) ∧
    (∀ (behave : Nat → KegtronDevice → Except (List Nat) Unit)
      (st : ScannerState) (ds : List KegtronDevice),
      ((scan behave st ds).2.1).last_readings =
        ds.foldl (fun m d => updateAssoc m d.device_id d) st.last_readings ∧
      ((scan behave st ds).2.1).callbacks = st.callbacks) ∧
    (∀ (behave behave' : Nat → KegtronDevice → Except (List Nat) Unit)
      (st : ScannerState) (ds : List KegtronDevice),
      (scan behave st ds).1 = (scan behave' st ds).1 ∧
      (scan behave st ds).2.1 = (scan behave' st ds).2.1 ∧
      ((scan behave st ds).2.2).map (fun e => (e.1, e.2.1)) =
        ((scan behave' st ds).2.2).map (fun e => (e.1, e.2.1))) ∧
    (∀ (m : List (List Nat × KegtronDevice)) (k : List Nat)
      (v : KegtronDevice),
      lookupAssoc (updateAssoc m k v) k = some v) := by
  refine ⟨fun _ _ _ => rfl, ?_, ?_, ?_, lookupAssoc_updateAssoc⟩
  · intro behave st ds
    exact scanLoop_trace behave st.callbacks ds st.last_readings
  · intro behave st ds
    exact ⟨scanLoop_fst behave st.callbacks ds st.last_readings, rfl⟩
  · intro behave behave' st ds
    refine ⟨rfl, ?_, ?_⟩
    · show ({ st with last_readings :=
          (scanLoop behave st.callbacks st.last_readings ds).1 } :
          ScannerState) =
        { st with last_readings :=
          (scanLoop behave' st.callbacks st.last_readings ds).1 }
      rw [scanLoop_fst, scanLoop_fst]
    · show ((scanLoop behave st.callbacks st.last_readings ds).2).map
          (fun e => (e.1, e.2.1)) =
        ((scanLoop behave' st.callbacks st.last_readings ds).2).map
          (fun e => (e.1, e.2.1))
      rw [scanLoop_trace, scanLoop_trace]

end Kegtron
